import Mathlib

/-!
Verification of the resumable orchestration engine of
`src/pageindex/resilient_indexer_gemini.py` (class `ResilientPageIndexer`).

The shallow embedding models:
  * the persisted run state (the checkpoint dictionary),
  * the `run` coroutine as a pure function from an environment of external
    collaborators and an initial state to a trace of observable events
    (state mutations, checkpoint saves, external calls), a final in-memory
    state and the returned structure,
  * the checkpoint store (`_load_state` / `_save_state`) over an abstract
    on-disk file content,
  * the derivation of the checkpoint path from the pdf path (`__init__`).

External collaborators (`get_number_of_pages`, `generate_toc_continue`,
`verify_toc`) are opaque: they are fields of the environment.  The retry
wrapper `call_with_backoff` is transparent to the orchestrator on the success
path modelled here, so a wrapped call appears as a single call event.
-/

/-- Opaque per-group extraction result (`segment` in the source). -/
abbrev Segment := Nat

/-- Opaque final structure returned by `verify_toc`. -/
abbrev TocStructure := Nat

/-- the values taken by `self.state["step"]` in the source.  The Python
strings are "INITIALIZE", "EXTRACT_NODES", "VERIFY", "COMPLETED"; the first
is abbreviated `INIT` here. -/
inductive Step
  | INIT
  | EXTRACT_NODES
  | VERIFY
  | COMPLETED
deriving DecidableEq, Repr

/-- the checkpoint dictionary `self.state` (see `_load_state`). -/
structure RunState where
  step : Step
  completed_groups : List String
  toc_segments : List Segment
  total_groups : Nat
  total_pages : Nat
deriving DecidableEq, Repr

/-- the freshly defaulted state built by `_load_state` when no checkpoint
file exists (lines 28-34). -/
def defaultState : RunState :=
  { step := Step.INIT
    completed_groups := []
    toc_segments := []
    total_groups := 0
    total_pages := 0 }

/-- the external collaborators consumed by `run`, for one fixed document:
`get_number_of_pages(pdf_path)`, `generate_toc_continue(pdf_path, key, opt)`
and `verify_toc(segments, opt)`.  `generate_toc_init` returns nothing that
`run` uses, so it appears only as an event. -/
structure Env where
  pages : Nat
  tocContinue : String → Segment
  verifyToc : List Segment → TocStructure

/-- observable events of one execution of `run`: in-memory mutations of
`self.state` that record progress (the state after the mutation is
attached), `_save_state` checkpoint writes, and the external calls issued
through `call_with_backoff`. -/
inductive Event
  | mutate (s : RunState)
  | save (s : RunState)
  | callInit
  | callExtract (g : String)
  | callVerify
deriving DecidableEq, Repr

/-- `math.ceil(self.state["total_pages"] / self.opt.max_page_num_each_node)`
(run, line 45): the ceiling of the exact division, computed here by the
usual integer formula; its agreement with the rational ceiling
`⌈pages / groupSize⌉` for a positive divisor is proved below
(`computeTotalGroups_eq_ceil`). -/
def computeTotalGroups (pages groupSize : Nat) : Nat :=
  (pages + groupSize - 1) / groupSize

/-- Step 0 of `run` (lines 42-46): when `total_pages` is 0, obtain the page
count (a local call, not an external one), derive `total_groups`, and save. -/
def step0 (env : Env) (groupSize : Nat) (st : RunState) :
    List Event × RunState :=
  if st.total_pages = 0 then
    let s := { st with total_pages := env.pages
                       total_groups := computeTotalGroups env.pages groupSize }
    ([Event.mutate s, Event.save s], s)
  else ([], st)

/-- Step 1 of `run` (lines 49-54): from INITIALIZE, issue the document-level
TOC-initialization call, advance the step, and save. -/
def step1 (st : RunState) : List Event × RunState :=
  if st.step = Step.INIT then
    let s := { st with step := Step.EXTRACT_NODES }
    ([Event.callInit, Event.mutate s, Event.save s], s)
  else ([], st)

/-- the state mutation of one Step-2 loop iteration for a new group `i`
(lines 92-93): the extraction result is appended to `toc_segments` and the
decimal key of `i` to `completed_groups`. -/
def extendState (env : Env) (st : RunState) (i : Nat) : RunState :=
  { st with toc_segments := st.toc_segments ++ [env.tocContinue (toString i)]
            completed_groups := st.completed_groups ++ [toString i] }

/-- the body of the Step-2 loop (lines 83-97) over the remaining group
indices: a completed group (its decimal key already in `completed_groups`)
is skipped with no call; otherwise the extraction call is issued, its result
appended to `toc_segments`, the key appended to `completed_groups`, and the
state saved. -/
def processGroups (env : Env) (st : RunState) : List Nat → List Event × RunState
  | [] => ([], st)
  | i :: rest =>
    if toString i ∈ st.completed_groups then
      processGroups env st rest
    else
      let s := extendState env st i
      let pr := processGroups env s rest
      (Event.callExtract (toString i) :: Event.mutate s :: Event.save s :: pr.1,
       pr.2)

/-- Step 2 of `run` (lines 81-100): from EXTRACT_NODES, run the group loop
over `range(1, total_groups + 1)`, then advance the step to VERIFY and
save. -/
def step2 (env : Env) (st : RunState) : List Event × RunState :=
  if st.step = Step.EXTRACT_NODES then
    let pr := processGroups env st (List.range' 1 st.total_groups)
    let s' := { pr.2 with step := Step.VERIFY }
    (pr.1 ++ [Event.mutate s', Event.save s'], s')
  else ([], st)

/-- Steps 3 and 4 of `run` (lines 103-117): from VERIFY, issue the single
verification call over the stored segments and return the final structure
(without any further state mutation or save); from COMPLETED, re-issue the
verification call over the stored segments and return its result.  Any
other step falls off the end of the Python function, returning None. -/
def step34 (env : Env) (st : RunState) : List Event × Option TocStructure :=
  if st.step = Step.VERIFY then
    ([Event.callVerify], some (env.verifyToc st.toc_segments))
  else if st.step = Step.COMPLETED then
    ([Event.callVerify], some (env.verifyToc st.toc_segments))
  else ([], none)

/-- the outcome of one execution of `ResilientPageIndexer.run`: the event
trace, the final in-memory `self.state`, and the value returned. -/
structure RunResult where
  trace : List Event
  final : RunState
  result : Option TocStructure
deriving DecidableEq, Repr

/-- `ResilientPageIndexer.run` (lines 40-117), for a document described by
`env`, with `groupSize = self.opt.max_page_num_each_node`, starting from the
loaded state `st0`. -/
def run (env : Env) (groupSize : Nat) (st0 : RunState) : RunResult :=
  let p0 := step0 env groupSize st0
  let p1 := step1 p0.2
  let p2 := step2 env p1.2
  let p3 := step34 env p2.2
  { trace := p0.1 ++ p1.1 ++ p2.1 ++ p3.1, final := p2.2, result := p3.2 }

/-- the group keys of the extraction calls issued in a trace, in order. -/
def extractCalls (tr : List Event) : List String :=
  tr.filterMap fun e =>
    match e with
    | Event.callExtract g => some g
    | _ => none

/-- the number of verification calls issued in a trace. -/
def verifyCallCount (tr : List Event) : Nat :=
  (tr.filter fun e => e = Event.callVerify).length

/-- the checkpoint states persisted in a trace, in order. -/
def savedStates (tr : List Event) : List RunState :=
  tr.filterMap fun e =>
    match e with
    | Event.save s => some s
    | _ => none

/-- Scan of a trace with a dirty flag: a mutation sets it, a save clears it,
and an external call while the flag is set is a violation of the
persist-before-call discipline (`none`); otherwise the final flag is
returned. -/
def checkSaved : Bool → List Event → Option Bool
  | d, [] => some d
  | _, Event.mutate _ :: tr => checkSaved true tr
  | _, Event.save _ :: tr => checkSaved false tr
  | d, Event.callInit :: tr => if d then none else checkSaved d tr
  | d, Event.callExtract _ :: tr => if d then none else checkSaved d tr
  | d, Event.callVerify :: tr => if d then none else checkSaved d tr

/-- a sample environment for concrete executions: a document with `p` pages,
extraction returning segment 0 for every group, verification returning the
number of segments. -/
def mkEnv (p : Nat) : Env :=
  { pages := p
    tocContinue := fun _ => 0
    verifyToc := fun l => l.length }

/-- contents of the checkpoint file on disk: no file, a complete encoding of
a state (what a finished `json.dump` leaves), or a truncated / partially
written file, which `json.load` cannot decode. -/
inductive Disk
  | absent
  | full (s : RunState)
  | truncated
deriving DecidableEq, Repr

/-- decoding of the on-disk representation, as by `json.load`: only a
complete encoding decodes. -/
def decodeDisk : Disk → Option RunState
  | Disk.full s => some s
  | _ => none

/-- `_load_state` (lines 22-34): if the checkpoint file exists, decode it —
`json.load` raises on an undecodable file and the error propagates; if no
file exists, return the freshly defaulted state. -/
def loadState : Disk → Except String RunState
  | Disk.absent => Except.ok defaultState
  | Disk.full s => Except.ok s
  | Disk.truncated => Except.error "json.decoder.JSONDecodeError"

/-- `_save_state` (lines 36-38): `open(self.state_path, "w")` truncates the
file in place, then `json.dump` writes the new encoding.  The list gives the
on-disk contents observable at the three stages: before the call, after the
open (truncated), and after a completed dump. -/
def saveDiskTrace (prior : Disk) (s : RunState) : List Disk :=
  [prior, Disk.truncated, Disk.full s]

/-- the on-disk contents when `_save_state` is interrupted after completing
`k` of its steps (`k = 0`: before the open; `k = 1`: after the open but
before the dump completes; `k ≥ 2`: dump completed). -/
def diskAfterSaveSteps (prior : Disk) (s : RunState) (k : Nat) : Disk :=
  (saveDiskTrace prior s).getD k (Disk.full s)

/-- `os.path.basename` for POSIX paths: the part of the path after the last
slash (the whole path when it has no slash), computed over the character
list. -/
def basename (p : String) : String :=
  String.mk (p.data.foldl (fun acc c => if c = '/' then [] else acc ++ [c]) [])

/-- the checkpoint path derived in `__init__` (lines 17-18):
`os.path.join(work_dir, f"{self.doc_name}_state.json")` with
`self.doc_name = os.path.basename(pdf_path)`, modelled for a `work_dir`
that does not end in a slash. -/
def statePath (workDir pdfPath : String) : String :=
  workDir ++ "/" ++ basename pdfPath ++ "_state.json"

/-- numeric value of a decimal digit character. -/
def charVal (c : Char) : Nat := c.toNat - 48

/-- value of a list of decimal digit characters, most significant first,
accumulated onto `acc`. -/
def valFrom (acc : Nat) (l : List Char) : Nat :=
  l.foldl (fun a c => 10 * a + charVal c) acc

/-- the spec's segment-bookkeeping invariant: the length of `toc_segments`
equals the number of entries of `completed_groups`. -/
def StateInv (s : RunState) : Prop :=
  s.toc_segments.length = s.completed_groups.length

instance (s : RunState) : Decidable (StateInv s) := by
  unfold StateInv; infer_instance

/-- growth order between two run states: `completed_groups` and
`toc_segments` of the first are prefixes of those of the second (append-only
evolution). -/
def Grows (a b : RunState) : Prop :=
  a.completed_groups <+: b.completed_groups ∧ a.toc_segments <+: b.toc_segments

instance (a b : RunState) : Decidable (Grows a b) := by
  unfold Grows; exact instDecidableAnd

/-- facts carried by one block of `run` that takes the state from `st` to
`fin` while emitting the trace `tr`: the persisted states preserve the
segment-bookkeeping invariant, grow monotonically from `st`, and the last
persisted state (or `st` when nothing is persisted) is `fin`. -/
def BlockOk (st : RunState) (tr : List Event) (fin : RunState) : Prop :=
  (StateInv st → ∀ s ∈ savedStates tr, StateInv s) ∧
  List.Chain' Grows (st :: savedStates tr) ∧
  (st :: savedStates tr).getLast? = some fin

theorem valFrom_cons (a : Nat) (c : Char) (l : List Char) :
    valFrom a (c :: l) = valFrom (10 * a + charVal c) l := rfl

theorem valFrom_linear (l : List Char) :
    ∀ a : Nat, valFrom a l = a * 10 ^ l.length + valFrom 0 l := by
  induction l with
  | nil => intro a; simp [valFrom]
  | cons c l ih =>
    intro a
    rw [valFrom_cons, ih, valFrom_cons, ih (10 * 0 + charVal c)]
    simp only [List.length_cons]
    ring

theorem charVal_digitChar : ∀ m : Nat, m < 10 →
    charVal (Nat.digitChar m) = m := by decide

theorem toDigitsCore_val : ∀ (fuel n : Nat) (l : List Char), n < 10 ^ fuel →
    valFrom 0 (Nat.toDigitsCore 10 fuel n l) = n * 10 ^ l.length + valFrom 0 l := by
  intro fuel
  induction fuel with
  | zero =>
    intro n l hn
    interval_cases n
    simp [Nat.toDigitsCore]
  | succ fuel ih =>
    intro n l hn
    simp only [Nat.toDigitsCore]
    by_cases h10 : n / 10 = 0
    · have hnlt : n < 10 := by omega
      simp only [h10, if_true]
      rw [valFrom_cons, valFrom_linear]
      have hmod : n % 10 = n := Nat.mod_eq_of_lt hnlt
      rw [hmod, charVal_digitChar n hnlt]
      norm_num
    · simp only [h10, if_false]
      have hdiv : n / 10 < 10 ^ fuel := by
        rw [Nat.div_lt_iff_lt_mul (by norm_num : 0 < 10)]
        calc n < 10 ^ (fuel + 1) := hn
        _ = 10 ^ fuel * 10 := by rw [pow_succ]
      rw [ih (n / 10) (Nat.digitChar (n % 10) :: l) hdiv]
      rw [valFrom_cons, valFrom_linear]
      rw [charVal_digitChar (n % 10) (Nat.mod_lt n (by norm_num))]
      have hsplit : 10 * (n / 10) + n % 10 = n := by omega
      simp only [List.length_cons]
      conv_rhs => rw [← hsplit]
      ring

theorem valFrom_repr (n : Nat) : valFrom 0 (Nat.repr n).data = n := by
  have hlt : n < 10 ^ (n + 1) := by
    calc n < 10 ^ n := Nat.lt_pow_self (by norm_num) n
    _ ≤ 10 ^ (n + 1) := Nat.pow_le_pow_right (by norm_num) (Nat.le_succ n)
  have h := toDigitsCore_val (n + 1) n [] hlt
  simpa [Nat.repr, Nat.toDigits, List.asString, valFrom] using h

theorem natToString_injective :
    Function.Injective (fun n : Nat => toString n) := by
  intro m n h
  have hm := valFrom_repr m
  have hn := valFrom_repr n
  have hrepr : Nat.repr m = Nat.repr n := h
  rw [hrepr] at hm
  omega

@[simp] theorem savedStates_nil : savedStates [] = [] := rfl

@[simp] theorem savedStates_save (s : RunState) (tr : List Event) :
    savedStates (Event.save s :: tr) = s :: savedStates tr := rfl

@[simp] theorem savedStates_mutate (s : RunState) (tr : List Event) :
    savedStates (Event.mutate s :: tr) = savedStates tr := rfl

@[simp] theorem savedStates_callInit (tr : List Event) :
    savedStates (Event.callInit :: tr) = savedStates tr := rfl

@[simp] theorem savedStates_callExtract (g : String) (tr : List Event) :
    savedStates (Event.callExtract g :: tr) = savedStates tr := rfl

@[simp] theorem savedStates_callVerify (tr : List Event) :
    savedStates (Event.callVerify :: tr) = savedStates tr := rfl

@[simp] theorem savedStates_append (a b : List Event) :
    savedStates (a ++ b) = savedStates a ++ savedStates b :=
  List.filterMap_append a b _

@[simp] theorem extractCalls_nil : extractCalls [] = [] := rfl

@[simp] theorem extractCalls_save (s : RunState) (tr : List Event) :
    extractCalls (Event.save s :: tr) = extractCalls tr := rfl

@[simp] theorem extractCalls_mutate (s : RunState) (tr : List Event) :
    extractCalls (Event.mutate s :: tr) = extractCalls tr := rfl

@[simp] theorem extractCalls_callInit (tr : List Event) :
    extractCalls (Event.callInit :: tr) = extractCalls tr := rfl

@[simp] theorem extractCalls_callExtract (g : String) (tr : List Event) :
    extractCalls (Event.callExtract g :: tr) = g :: extractCalls tr := rfl

@[simp] theorem extractCalls_callVerify (tr : List Event) :
    extractCalls (Event.callVerify :: tr) = extractCalls tr := rfl

@[simp] theorem extractCalls_append (a b : List Event) :
    extractCalls (a ++ b) = extractCalls a ++ extractCalls b :=
  List.filterMap_append a b _

@[simp] theorem verifyCallCount_nil : verifyCallCount [] = 0 := rfl

@[simp] theorem verifyCallCount_append (a b : List Event) :
    verifyCallCount (a ++ b) = verifyCallCount a + verifyCallCount b := by
  simp [verifyCallCount, List.filter_append]

theorem processGroups_nil (env : Env) (st : RunState) :
    processGroups env st [] = ([], st) := rfl

theorem processGroups_cons_mem (env : Env) (st : RunState) (i : Nat)
    (rest : List Nat) (h : toString i ∈ st.completed_groups) :
    processGroups env st (i :: rest) = processGroups env st rest := by
  simp [processGroups, h]

theorem processGroups_cons_new (env : Env) (st : RunState) (i : Nat)
    (rest : List Nat) (h : toString i ∉ st.completed_groups) :
    processGroups env st (i :: rest) =
      (Event.callExtract (toString i) :: Event.mutate (extendState env st i) ::
         Event.save (extendState env st i) ::
         (processGroups env (extendState env st i) rest).1,
       (processGroups env (extendState env st i) rest).2) := by
  simp [processGroups, h]

theorem processGroups_preserved (env : Env) :
    ∀ (l : List Nat) (st : RunState),
      (processGroups env st l).2.step = st.step ∧
      (processGroups env st l).2.total_groups = st.total_groups ∧
      (processGroups env st l).2.total_pages = st.total_pages := by
  intro l
  induction l with
  | nil => intro st; exact ⟨rfl, rfl, rfl⟩
  | cons i rest ih =>
    intro st
    by_cases h : toString i ∈ st.completed_groups
    · rw [processGroups_cons_mem env st i rest h]
      exact ih st
    · rw [processGroups_cons_new env st i rest h]
      exact ih (extendState env st i)

theorem processGroups_savedStates_inv (env : Env) :
    ∀ (l : List Nat) (st : RunState), StateInv st →
      ∀ s ∈ savedStates (processGroups env st l).1, StateInv s := by
  intro l
  induction l with
  | nil => intro st _ s hs; simp [processGroups_nil] at hs
  | cons i rest ih =>
    intro st hst s hs
    by_cases h : toString i ∈ st.completed_groups
    · rw [processGroups_cons_mem env st i rest h] at hs
      exact ih st hst s hs
    · rw [processGroups_cons_new env st i rest h] at hs
      simp only [savedStates_callExtract, savedStates_mutate, savedStates_save] at hs
      have hinv : StateInv (extendState env st i) := by
        simp only [StateInv, extendState, List.length_append, List.length_singleton] at hst ⊢
        omega
      rcases List.mem_cons.mp hs with rfl | hs'
      · exact hinv
      · exact ih (extendState env st i) hinv s hs'

theorem grows_extend (env : Env) (st : RunState) (i : Nat) :
    Grows st (extendState env st i) :=
  ⟨⟨[toString i], rfl⟩, ⟨[env.tocContinue (toString i)], rfl⟩⟩

theorem processGroups_chain (env : Env) :
    ∀ (l : List Nat) (st : RunState),
      List.Chain' Grows (st :: savedStates (processGroups env st l).1) := by
  intro l
  induction l with
  | nil => intro st; simp [processGroups_nil]
  | cons i rest ih =>
    intro st
    by_cases h : toString i ∈ st.completed_groups
    · rw [processGroups_cons_mem env st i rest h]
      exact ih st
    · rw [processGroups_cons_new env st i rest h]
      simp only [savedStates_callExtract, savedStates_mutate, savedStates_save]
      exact List.chain'_cons.mpr ⟨grows_extend env st i, ih (extendState env st i)⟩

theorem processGroups_getLast (env : Env) :
    ∀ (l : List Nat) (st : RunState),
      (st :: savedStates (processGroups env st l).1).getLast? =
        some (processGroups env st l).2 := by
  intro l
  induction l with
  | nil => intro st; simp [processGroups_nil]
  | cons i rest ih =>
    intro st
    by_cases h : toString i ∈ st.completed_groups
    · rw [processGroups_cons_mem env st i rest h]
      exact ih st
    · rw [processGroups_cons_new env st i rest h]
      simp only [savedStates_callExtract, savedStates_mutate, savedStates_save]
      rw [List.getLast?_cons_cons]
      exact ih (extendState env st i)

theorem processGroups_extractCalls (env : Env) :
    ∀ (l : List Nat) (st : RunState), l.Nodup →
      extractCalls (processGroups env st l).1 =
        (l.filter fun i => decide (toString i ∉ st.completed_groups)).map
          (fun i => toString i) := by
  intro l
  induction l with
  | nil => intro st _; simp [processGroups_nil]
  | cons i rest ih =>
    intro st hnd
    rcases List.nodup_cons.mp hnd with ⟨hi, hrest⟩
    by_cases h : toString i ∈ st.completed_groups
    · rw [processGroups_cons_mem env st i rest h]
      rw [ih st hrest]
      rw [List.filter_cons_of_neg]
      simp [h]
    · rw [processGroups_cons_new env st i rest h]
      simp only [extractCalls_callExtract, extractCalls_mutate, extractCalls_save]
      rw [ih (extendState env st i) hrest]
      rw [List.filter_cons_of_pos (by simp [h])]
      rw [List.map_cons]
      congr 1
      apply congrArg
      apply List.filter_congr
      intro j hj
      have hne : toString j ≠ toString i := fun hEq =>
        hi (natToString_injective hEq ▸ hj)
      simp only [extendState, List.mem_append, List.mem_singleton]
      simp [hne]

theorem checkSaved_append :
    ∀ (a : List Event) (d : Bool) (b : List Event),
      checkSaved d (a ++ b) = (checkSaved d a).bind fun e => checkSaved e b := by
  intro a
  induction a with
  | nil => intro d b; simp [checkSaved]
  | cons e tr ih =>
    intro d b
    cases e with
    | mutate s => simpa [checkSaved] using ih true b
    | save s => simpa [checkSaved] using ih false b
    | callInit => cases d <;> simp [checkSaved, ih]
    | callExtract g => cases d <;> simp [checkSaved, ih]
    | callVerify => cases d <;> simp [checkSaved, ih]

theorem computeTotalGroups_eq_ceil (p g : Nat) (hg : 0 < g) :
    (computeTotalGroups p g : ℤ) = ⌈(p : ℚ) / (g : ℚ)⌉ := by
  unfold computeTotalGroups
  have hm := Nat.div_add_mod (p + g - 1) g
  have hr : (p + g - 1) % g < g := Nat.mod_lt _ hg
  set n := (p + g - 1) / g with hn
  have hA : p ≤ g * n := by omega
  have hB : g * n < p + g := by omega
  have hgQ : (0 : ℚ) < (g : ℚ) := by exact_mod_cast hg
  symm
  rw [Int.ceil_eq_iff]
  constructor
  · rw [lt_div_iff₀ hgQ]
    have hBQ : ((g : ℚ) * n) < (p : ℚ) + g := by exact_mod_cast hB
    push_cast
    linarith
  · rw [div_le_iff₀ hgQ]
    have hAQ : (p : ℚ) ≤ (g : ℚ) * n := by exact_mod_cast hA
    push_cast
    linarith

theorem computeTotalGroups_zero (g : Nat) : computeTotalGroups 0 g = 0 := by
  unfold computeTotalGroups
  rcases Nat.eq_zero_or_pos g with rfl | hg
  · rfl
  · exact Nat.div_eq_of_lt (by omega)

theorem mem_of_getLast?_cons {st : RunState} {sv : List RunState} {x : RunState}
    (h : (st :: sv).getLast? = some x) : x ∈ st :: sv := by
  have hx : x ∈ (st :: sv).getLast? := by rw [h]; rfl
  rcases List.mem_getLast?_eq_getLast hx with ⟨hne, rfl⟩
  exact List.getLast_mem hne

theorem blockOk_comp {st mid fin : RunState} {tr1 tr2 : List Event}
    (h1 : BlockOk st tr1 mid) (h2 : BlockOk mid tr2 fin) :
    BlockOk st (tr1 ++ tr2) fin := by
  obtain ⟨hi1, hc1, hl1⟩ := h1
  obtain ⟨hi2, hc2, hl2⟩ := h2
  refine ⟨?_, ?_, ?_⟩
  · intro hst s hs
    rw [savedStates_append, List.mem_append] at hs
    rcases hs with hs | hs
    · exact hi1 hst s hs
    · have hmid : StateInv mid := by
        rcases List.mem_cons.mp (mem_of_getLast?_cons hl1) with h | h
        · exact h ▸ hst
        · exact hi1 hst mid h
      exact hi2 hmid s hs
  · rw [savedStates_append]
    have hall : List.Chain' Grows ((st :: savedStates tr1) ++ savedStates tr2) := by
      apply List.Chain'.append hc1 hc2.tail
      intro x hx y hy
      have hx' : mid = x := by
        rw [hl1] at hx
        exact Option.mem_some_iff.mp hx
      subst hx'
      rcases hsv2 : savedStates tr2 with _ | ⟨b, sv⟩
      · rw [hsv2] at hy
        exact absurd hy (by simp)
      · rw [hsv2] at hy
        rw [List.tail_cons, List.head?_cons] at hy
        have hyb : b = y := Option.mem_some_iff.mp hy
        subst hyb
        rw [hsv2] at hc2
        exact (List.chain'_cons.mp hc2).1
    exact hall
  · rw [savedStates_append]
    rcases hsv2 : savedStates tr2 with _ | ⟨b, sv⟩
    · rw [hsv2] at hl2
      have hmf : mid = fin := by simpa using hl2
      subst hmf
      simpa using hl1
    · rw [hsv2] at hl2
      rw [List.getLast?_cons_cons] at hl2
      have heq : st :: (savedStates tr1 ++ b :: sv) =
          (st :: savedStates tr1) ++ b :: sv := rfl
      rw [heq, List.getLast?_append_cons]
      exact hl2

theorem grows_of_eq {a b : RunState}
    (hc : a.completed_groups = b.completed_groups)
    (ht : a.toc_segments = b.toc_segments) : Grows a b := by
  refine ⟨?_, ?_⟩
  · rw [hc]
  · rw [ht]

theorem blockOk_nil (st : RunState) : BlockOk st [] st :=
  ⟨fun _ s hs => absurd hs (by simp), List.chain'_singleton st, rfl⟩

theorem blockOk_save_eqLists (st s : RunState) (tr : List Event)
    (htr : savedStates tr = [s])
    (hc : st.completed_groups = s.completed_groups)
    (ht : st.toc_segments = s.toc_segments) :
    BlockOk st tr s := by
  unfold BlockOk
  rw [htr]
  refine ⟨?_, ?_, rfl⟩
  · intro hst x hx
    rcases List.mem_cons.mp hx with rfl | hx'
    · unfold StateInv at hst ⊢
      rw [← hc, ← ht]
      exact hst
    · exact absurd hx' (by simp)
  · exact List.chain'_pair.mpr (grows_of_eq hc ht)

theorem processGroups_blockOk (env : Env) (l : List Nat) (st : RunState) :
    BlockOk st (processGroups env st l).1 (processGroups env st l).2 :=
  ⟨fun h => processGroups_savedStates_inv env l st h,
   processGroups_chain env l st,
   processGroups_getLast env l st⟩

theorem step0_blockOk (env : Env) (gs : Nat) (st : RunState) :
    BlockOk st (step0 env gs st).1 (step0 env gs st).2 := by
  unfold step0
  split
  · exact blockOk_save_eqLists st _ _ rfl rfl rfl
  · exact blockOk_nil st

theorem step1_blockOk (st : RunState) :
    BlockOk st (step1 st).1 (step1 st).2 := by
  unfold step1
  split
  · exact blockOk_save_eqLists st _ _ rfl rfl rfl
  · exact blockOk_nil st

theorem step2_blockOk (env : Env) (st : RunState) :
    BlockOk st (step2 env st).1 (step2 env st).2 := by
  unfold step2
  split
  · exact blockOk_comp
      (processGroups_blockOk env (List.range' 1 st.total_groups) st)
      (blockOk_save_eqLists _ _ _ rfl rfl rfl)
  · exact blockOk_nil st

theorem step34_blockOk (env : Env) (st : RunState) :
    BlockOk st (step34 env st).1 st := by
  unfold step34
  split
  · exact ⟨fun _ s hs => absurd hs (by simp), List.chain'_singleton st, rfl⟩
  · split
    · exact ⟨fun _ s hs => absurd hs (by simp), List.chain'_singleton st, rfl⟩
    · exact blockOk_nil st

theorem run_blockOk (env : Env) (gs : Nat) (st : RunState) :
    BlockOk st (run env gs st).trace (run env gs st).final := by
  unfold run
  exact blockOk_comp
    (blockOk_comp
      (blockOk_comp (step0_blockOk env gs st) (step1_blockOk _))
      (step2_blockOk env _))
    (step34_blockOk env _)

theorem processGroups_checkSaved (env : Env) :
    ∀ (l : List Nat) (st : RunState),
      checkSaved false (processGroups env st l).1 = some false := by
  intro l
  induction l with
  | nil => intro st; rfl
  | cons i rest ih =>
    intro st
    by_cases h : toString i ∈ st.completed_groups
    · rw [processGroups_cons_mem env st i rest h]
      exact ih st
    · rw [processGroups_cons_new env st i rest h]
      simpa [checkSaved] using ih (extendState env st i)

theorem step0_checkSaved (env : Env) (gs : Nat) (st : RunState) :
    checkSaved false (step0 env gs st).1 = some false := by
  unfold step0
  split <;> rfl

theorem step1_checkSaved (st : RunState) :
    checkSaved false (step1 st).1 = some false := by
  unfold step1
  split <;> rfl

theorem step2_checkSaved (env : Env) (st : RunState) :
    checkSaved false (step2 env st).1 = some false := by
  unfold step2
  split
  · show checkSaved false
      ((processGroups env st (List.range' 1 st.total_groups)).1 ++ _) = some false
    rw [checkSaved_append, processGroups_checkSaved]
    rfl
  · rfl

theorem step34_checkSaved (env : Env) (st : RunState) :
    checkSaved false (step34 env st).1 = some false := by
  unfold step34
  split
  · rfl
  · split <;> rfl

theorem step0_skip (env : Env) (gs : Nat) (st : RunState)
    (h : st.total_pages ≠ 0) : step0 env gs st = ([], st) := by
  unfold step0
  rw [if_neg h]

theorem step0_fields (env : Env) (gs : Nat) (st : RunState) :
    (step0 env gs st).2.step = st.step ∧
    (step0 env gs st).2.completed_groups = st.completed_groups ∧
    (step0 env gs st).2.toc_segments = st.toc_segments := by
  unfold step0
  split <;> exact ⟨rfl, rfl, rfl⟩

theorem step0_no_calls (env : Env) (gs : Nat) (st : RunState) :
    extractCalls (step0 env gs st).1 = [] ∧
    verifyCallCount (step0 env gs st).1 = 0 := by
  unfold step0
  split <;> exact ⟨rfl, rfl⟩

theorem step1_skip (st : RunState) (h : st.step ≠ Step.INIT) :
    step1 st = ([], st) := by
  unfold step1
  rw [if_neg h]

theorem step2_skip (env : Env) (st : RunState)
    (h : st.step ≠ Step.EXTRACT_NODES) : step2 env st = ([], st) := by
  unfold step2
  rw [if_neg h]

theorem step34_completed (env : Env) (st : RunState)
    (h : st.step = Step.COMPLETED) :
    step34 env st = ([Event.callVerify], some (env.verifyToc st.toc_segments)) := by
  unfold step34
  rw [if_neg (by rw [h]; intro hc; cases hc), if_pos h]

theorem step34_verify (env : Env) (st : RunState)
    (h : st.step = Step.VERIFY) :
    step34 env st = ([Event.callVerify], some (env.verifyToc st.toc_segments)) := by
  unfold step34
  rw [if_pos h]

/-- C4: along every execution of `run`, every state mutation that records
newly confirmed progress (the computed totals, a phase advance, a completed
group appended to `completed_groups` and `toc_segments`) is persisted by
`_save_state` before the next external call is issued: the dirty-flag scan
of the emitted event trace never encounters an external call while a
mutation is unpersisted. -/
theorem run_persists_before_next_call (env : Env) (gs : Nat) (st : RunState) :
    checkSaved false (run env gs st).trace = some false := by
  unfold run
  show checkSaved false ((step0 env gs st).1 ++ _ ++ _ ++ _) = some false
  simp only [checkSaved_append, step0_checkSaved, step1_checkSaved,
    step2_checkSaved, step34_checkSaved, Option.some_bind']

theorem step34_no_extract (env : Env) (st : RunState) :
    extractCalls (step34 env st).1 = [] := by
  unfold step34
  split
  · rfl
  · split <;> rfl

theorem step1_total_groups (st : RunState) :
    (step1 st).2.total_groups = st.total_groups := by
  unfold step1
  split <;> rfl

theorem step2_total_groups (env : Env) (st : RunState) :
    (step2 env st).2.total_groups = st.total_groups := by
  unfold step2
  split
  · exact (processGroups_preserved env (List.range' 1 st.total_groups) st).2.1
  · rfl

@[simp] theorem verifyCallCount_save (s : RunState) (tr : List Event) :
    verifyCallCount (Event.save s :: tr) = verifyCallCount tr := rfl

@[simp] theorem verifyCallCount_mutate (s : RunState) (tr : List Event) :
    verifyCallCount (Event.mutate s :: tr) = verifyCallCount tr := rfl

@[simp] theorem verifyCallCount_callInit (tr : List Event) :
    verifyCallCount (Event.callInit :: tr) = verifyCallCount tr := rfl

@[simp] theorem verifyCallCount_callExtract (g : String) (tr : List Event) :
    verifyCallCount (Event.callExtract g :: tr) = verifyCallCount tr := rfl

@[simp] theorem verifyCallCount_callVerify (tr : List Event) :
    verifyCallCount (Event.callVerify :: tr) = verifyCallCount tr + 1 := by
  simp [verifyCallCount, List.filter_cons]

theorem run_final_total_groups_default (env : Env) (gs : Nat) :
    (run env gs defaultState).final.total_groups = computeTotalGroups env.pages gs := by
  unfold run
  rw [step2_total_groups, step1_total_groups]
  unfold step0
  rw [if_pos (show defaultState.total_pages = 0 from rfl)]

theorem step2_extract (env : Env) (st : RunState)
    (h : st.step = Step.EXTRACT_NODES) :
    step2 env st =
      ((processGroups env st (List.range' 1 st.total_groups)).1 ++
        [Event.mutate { (processGroups env st (List.range' 1 st.total_groups)).2 with
            step := Step.VERIFY },
         Event.save { (processGroups env st (List.range' 1 st.total_groups)).2 with
            step := Step.VERIFY }],
       { (processGroups env st (List.range' 1 st.total_groups)).2 with
         step := Step.VERIFY }) := by
  unfold step2
  rw [if_pos h]

/-- C9: at every persisted observation point of a run, the number of stored
segments equals the number of `completed_groups` entries, and the persisted
states grow append-only from the loaded state: each persisted state's
`completed_groups` and `toc_segments` extend (as prefixes) those of the
previous observation point, so no entry is ever removed or replaced. -/
theorem run_segment_bookkeeping (env : Env) (gs : Nat) (st : RunState)
    (h : StateInv st) :
    (∀ s ∈ savedStates (run env gs st).trace, StateInv s) ∧
    List.Chain' Grows (st :: savedStates (run env gs st).trace) :=
  ⟨(run_blockOk env gs st).1 h, (run_blockOk env gs st).2.1⟩

theorem run_segment_bookkeeping_witness :
    StateInv (⟨Step.EXTRACT_NODES, ["1"], [7], 2, 15⟩ : RunState) ∧
    ((∀ s ∈ savedStates
          (run (mkEnv 15) 10 ⟨Step.EXTRACT_NODES, ["1"], [7], 2, 15⟩).trace,
        StateInv s) ∧
      List.Chain' Grows ((⟨Step.EXTRACT_NODES, ["1"], [7], 2, 15⟩ : RunState) ::
        savedStates
          (run (mkEnv 15) 10 ⟨Step.EXTRACT_NODES, ["1"], [7], 2, 15⟩).trace)) :=
  ⟨by decide, run_segment_bookkeeping (mkEnv 15) 10 _ (by decide)⟩

/-- C8: calling `run` on a state whose step is COMPLETED issues zero
extraction calls and exactly one verification call, over the stored
segments, and returns the structure produced by the verification of those
segments — the same structure the original run returned for them. -/
theorem run_terminal_stability (env : Env) (gs : Nat) (st : RunState)
    (h : st.step = Step.COMPLETED) :
    extractCalls (run env gs st).trace = [] ∧
    verifyCallCount (run env gs st).trace = 1 ∧
    (run env gs st).result = some (env.verifyToc st.toc_segments) := by
  obtain ⟨hs, hcg, hts⟩ := step0_fields env gs st
  obtain ⟨hec, hvc⟩ := step0_no_calls env gs st
  have hns : (step0 env gs st).2.step = Step.COMPLETED := by rw [hs, h]
  have h1 : step1 (step0 env gs st).2 = ([], (step0 env gs st).2) :=
    step1_skip _ (by rw [hns]; intro hc; cases hc)
  have h2 : step2 env (step0 env gs st).2 = ([], (step0 env gs st).2) :=
    step2_skip env _ (by rw [hns]; intro hc; cases hc)
  have h34 := step34_completed env _ hns
  unfold run
  simp only [h1, h2, h34]
  refine ⟨?_, ?_, ?_⟩
  · simp [hec]
  · simp [hvc]
  · simp [hts]

/-- C2: for every positive page count and positive group size, the
`total_groups` computed once at initialization by `run` equals the ceiling
of `total_pages / group_size`; in particular 90 pages with group size 10
give 9 groups, 91 pages give 10, and 1 page gives 1. -/
theorem run_group_count_law :
    (∀ (env : Env) (gs : Nat), 0 < env.pages → 0 < gs →
        ((run env gs defaultState).final.total_groups : ℤ) =
          ⌈(env.pages : ℚ) / (gs : ℚ)⌉) ∧
    (run (mkEnv 90) 10 defaultState).final.total_groups = 9 ∧
    (run (mkEnv 91) 10 defaultState).final.total_groups = 10 ∧
    (run (mkEnv 1) 10 defaultState).final.total_groups = 1 := by
  refine ⟨?_, by decide, by decide, by decide⟩
  intro env gs hp hg
  rw [run_final_total_groups_default]
  exact computeTotalGroups_eq_ceil env.pages gs hg

theorem run_group_count_law_witness :
    ((run (mkEnv 91) 10 defaultState).final.total_groups : ℤ) =
      ⌈((91 : Nat) : ℚ) / ((10 : Nat) : ℚ)⌉ :=
  run_group_count_law.1 (mkEnv 91) 10 (by decide) (by decide)

theorem run_terminal_stability_witness :
    extractCalls (run (mkEnv 23) 10
        ⟨Step.COMPLETED, ["1", "2", "3"], [4, 5, 6], 3, 23⟩).trace = [] ∧
    verifyCallCount (run (mkEnv 23) 10
        ⟨Step.COMPLETED, ["1", "2", "3"], [4, 5, 6], 3, 23⟩).trace = 1 ∧
    (run (mkEnv 23) 10
        ⟨Step.COMPLETED, ["1", "2", "3"], [4, 5, 6], 3, 23⟩).result =
      some ((mkEnv 23).verifyToc [4, 5, 6]) :=
  run_terminal_stability (mkEnv 23) 10 _ rfl

/-- C6: for a zero-page document, the `total_groups` computed by `run` is 0,
the extraction phase issues zero extraction calls, and the persisted step
sequence advances directly from EXTRACT_NODES to VERIFY. -/
theorem run_degenerate_document (env : Env) (gs : Nat) (h : env.pages = 0) :
    (run env gs defaultState).final.total_groups = 0 ∧
    extractCalls (run env gs defaultState).trace = [] ∧
    (savedStates (run env gs defaultState).trace).map RunState.step =
      [Step.INIT, Step.EXTRACT_NODES, Step.VERIFY] := by
  have h0 : step0 env gs defaultState =
      ([Event.mutate defaultState, Event.save defaultState], defaultState) := by
    unfold step0
    rw [if_pos (show defaultState.total_pages = 0 from rfl), h,
      computeTotalGroups_zero]
    rfl
  have h1 : step1 defaultState =
      ([Event.callInit, Event.mutate ⟨Step.EXTRACT_NODES, [], [], 0, 0⟩,
        Event.save ⟨Step.EXTRACT_NODES, [], [], 0, 0⟩],
       ⟨Step.EXTRACT_NODES, [], [], 0, 0⟩) := rfl
  have h2 : step2 env (⟨Step.EXTRACT_NODES, [], [], 0, 0⟩ : RunState) =
      ([Event.mutate ⟨Step.VERIFY, [], [], 0, 0⟩,
        Event.save ⟨Step.VERIFY, [], [], 0, 0⟩],
       ⟨Step.VERIFY, [], [], 0, 0⟩) := rfl
  have h34 : step34 env (⟨Step.VERIFY, [], [], 0, 0⟩ : RunState) =
      ([Event.callVerify], some (env.verifyToc [])) := rfl
  unfold run
  simp [h0, h1, h2, h34]
  rfl

theorem run_degenerate_document_witness :
    (run (mkEnv 0) 10 defaultState).final.total_groups = 0 ∧
    extractCalls (run (mkEnv 0) 10 defaultState).trace = [] ∧
    (savedStates (run (mkEnv 0) 10 defaultState).trace).map RunState.step =
      [Step.INIT, Step.EXTRACT_NODES, Step.VERIFY] :=
  run_degenerate_document (mkEnv 0) 10 rfl

/-- C3: running from an EXTRACTING checkpoint issues extraction calls
exactly for the group indices in 1..total_groups whose decimal key is not
in `completed_groups`, in ascending order, and no call for any completed
group.  The hypothesis on a zero `total_pages` states checkpoint
consistency: an EXTRACTING checkpoint with zero pages only arises for a
zero-page document, which also has zero groups. -/
theorem run_idempotent_resume (env : Env) (gs : Nat) (st : RunState)
    (h1 : st.step = Step.EXTRACT_NODES)
    (h2 : st.total_pages = 0 → env.pages = 0 ∧ st.total_groups = 0) :
    extractCalls (run env gs st).trace =
      ((List.range' 1 st.total_groups).filter
          (fun i => decide (toString i ∉ st.completed_groups))).map
        (fun i => toString i) := by
  have hskip1 : step1 st = ([], st) :=
    step1_skip st (by rw [h1]; intro hc; cases hc)
  by_cases hp : st.total_pages = 0
  · obtain ⟨hpages, hgroups⟩ := h2 hp
    have h0 : step0 env gs st = ([Event.mutate st, Event.save st], st) := by
      unfold step0
      rw [if_pos hp]
      obtain ⟨a, b, c, d, e⟩ := st
      have hd : d = 0 := hgroups
      have he : e = 0 := hp
      subst hd
      subst he
      rw [hpages, computeTotalGroups_zero]
    unfold run
    simp only [h0, hskip1, step2_extract env st h1, extractCalls_append,
      extractCalls_mutate, extractCalls_save, extractCalls_nil,
      step34_no_extract, List.append_nil, List.nil_append]
    rw [processGroups_extractCalls env (List.range' 1 st.total_groups) st
      (List.nodup_range' 1 st.total_groups)]
  · have h0 := step0_skip env gs st hp
    unfold run
    simp only [h0, hskip1, step2_extract env st h1, extractCalls_append,
      extractCalls_mutate, extractCalls_save, extractCalls_nil,
      step34_no_extract, List.append_nil, List.nil_append]
    rw [processGroups_extractCalls env (List.range' 1 st.total_groups) st
      (List.nodup_range' 1 st.total_groups)]

theorem run_idempotent_resume_witness :
    extractCalls (run (mkEnv 23) 10
        ⟨Step.EXTRACT_NODES, ["1", "2"], [5, 6], 3, 23⟩).trace = ["3"] := by
  have h := run_idempotent_resume (mkEnv 23) 10
    ⟨Step.EXTRACT_NODES, ["1", "2"], [5, 6], 3, 23⟩ rfl (by decide)
  rw [h]
  decide

/-- C1: the code violates this claim.  A run that reaches VERIFYING and
whose verification call succeeds returns the final structure but never
persists a COMPLETED phase: on a full fresh run of a 5-page document with
group size 10, a structure is returned, yet the persisted step sequence is
INITIALIZE, EXTRACT_NODES, EXTRACT_NODES, VERIFY — it ends at VERIFY — and
the final in-memory step also remains VERIFY, so the phase never reaches
COMPLETED. -/
theorem run_returns_without_persisting_completed :
    (run (mkEnv 5) 10 defaultState).result = some 1 ∧
    (run (mkEnv 5) 10 defaultState).final.step = Step.VERIFY ∧
    (savedStates (run (mkEnv 5) 10 defaultState).trace).map RunState.step =
      [Step.INIT, Step.EXTRACT_NODES, Step.EXTRACT_NODES, Step.VERIFY] := by
  decide

/-- C5 counterexample: the prior checkpoint contents are decodable, but the
on-disk contents after `_save_state` has opened the file for writing
(truncating it in place) and before the dump completes are the truncated
file — not the prior contents, and not decodable. -/
theorem save_interrupted_counterexample :
    decodeDisk (Disk.full defaultState) = some defaultState ∧
    diskAfterSaveSteps (Disk.full defaultState) defaultState 1 = Disk.truncated ∧
    decodeDisk (diskAfterSaveSteps (Disk.full defaultState) defaultState 1) =
      none := by
  decide

/-- C5 amended: `_save_state` overwrites the entire representation in
place: before the call the prior contents stand; after the open the file is
truncated and undecodable, so a save failing at that point has lost the
prior checkpoint; after a completed dump the file decodes to the new
state. -/
theorem save_truncates_then_writes (prior : Disk) (s : RunState) :
    diskAfterSaveSteps prior s 0 = prior ∧
    diskAfterSaveSteps prior s 1 = Disk.truncated ∧
    decodeDisk (diskAfterSaveSteps prior s 1) = none ∧
    diskAfterSaveSteps prior s 2 = Disk.full s ∧
    decodeDisk (diskAfterSaveSteps prior s 2) = some s :=
  ⟨rfl, rfl, rfl, rfl, rfl⟩

/-- C7: `_load_state` returns the persisted state when the checkpoint file
exists and decodes, a freshly defaulted state (INITIALIZE step, empty
groups and segments, zero totals) when no file exists, and fails with the
propagated decode error when the file exists but cannot be decoded — it
never returns a fresh default over a corrupt file. -/
theorem loadState_semantics :
    loadState Disk.absent = Except.ok defaultState ∧
    defaultState = ⟨Step.INIT, [], [], 0, 0⟩ ∧
    (∀ s : RunState, loadState (Disk.full s) = Except.ok s) ∧
    loadState Disk.truncated = Except.error "json.decoder.JSONDecodeError" ∧
    (loadState Disk.truncated).isOk = false :=
  ⟨rfl, rfl, fun _ => rfl, rfl, rfl⟩

/-- C10: the checkpoint path depends on the pdf path only through its
basename: two document paths with equal basenames map to the same
checkpoint file under the same working directory, and hence load the same
checkpoint state from any file system. -/
theorem statePath_depends_only_on_basename (w p1 p2 : String)
    (h : basename p1 = basename p2) :
    statePath w p1 = statePath w p2 ∧
    ∀ fs : String → Disk,
      loadState (fs (statePath w p1)) = loadState (fs (statePath w p2)) := by
  have hp : statePath w p1 = statePath w p2 := by
    unfold statePath
    rw [h]
  exact ⟨hp, fun fs => by rw [hp]⟩

theorem statePath_depends_only_on_basename_witness :
    statePath "./tmp" "runs/a/doc.pdf" = statePath "./tmp" "runs/b/doc.pdf" :=
  (statePath_depends_only_on_basename "./tmp" "runs/a/doc.pdf" "runs/b/doc.pdf"
    (by decide)).1
